import Mathlib

/-!
Shallow embedding of `data_prep.py` (instrument-recognition data preparation)
and proofs about its patch extraction, label aggregation, vocabulary build,
normalization and batch-persistence behaviour.

Conventions of the embedding:
* numpy sample values and pandas confidence values are modelled as rationals
  (the claims under study are about control flow, window selection and
  counting, not floating-point rounding); normalization, whose standard
  deviation is a real square root, is modelled over the reals;
* Python dictionaries are modelled as association lists (iteration order is
  the list order); a `KeyError` raised by `d[k]`, a failed `assert`, and the
  `ValueError` raised by unpacking an empty `zip` are modelled with `Except`;
* IEEE undefined values (NaN from a division by a zero standard deviation)
  are modelled by `Option`: `none` is the propagated undefined value.
-/

/-- Errors the Python code can raise in the modelled fragment. -/
inductive PrepError where
  | assertionFailed : PrepError
  | keyError : String → PrepError
  | valueError : PrepError
deriving DecidableEq, Repr

/-- Python dictionary lookup `d[k]` on an association list
(first binding wins; in a dict there is at most one binding per key). -/
def dict_lookup {β : Type} (k : String) : List (String × β) → Option β
  | [] => none
  | (k', v) :: rest => if k' = k then some v else dict_lookup k rest

/-- `patch_size = 44100 * length` from `split_music_to_patches`
(`length` is the patch length in seconds, sample rate fixed at 44100). -/
def patch_size (length : Nat) : Nat := 44100 * length

/-- Number of loop iterations of `xrange(0, n - patch_size, patch_size)`
(line 179 of the source): the number of naturals `e = 0, P, 2P, ...` with
`e < n - P`.  A Python `xrange` with negative stop is empty; `Nat` truncated
subtraction models that case. -/
def num_patches (n P : Nat) : Nat := (n - P + (P - 1)) / P

/-- The window start offsets `e` produced by
`xrange(0, v.shape[1] - patch_size, patch_size)` (line 179), in order. -/
def patch_starts (n P : Nat) : List Nat :=
  (List.range (num_patches n P)).map (fun i => i * P)

section PatchCounting

/-- Membership of `patch_starts`: exactly the multiples `i*P` with
`i < num_patches n P`. -/
theorem mem_patch_starts {n P e : Nat} :
    e ∈ patch_starts n P ↔ ∃ i, i < num_patches n P ∧ i * P = e := by
  simp [patch_starts]

/-- With `P > 0` and `n ≥ P`, `num_patches n P = (n-1)/P`. -/
theorem num_patches_eq_pred_div {n P : Nat} (hP : 0 < P) (h : P ≤ n) :
    num_patches n P = (n - 1) / P := by
  unfold num_patches
  congr 1
  omega

/-- When `P` does not divide `n`, the loop runs exactly `⌊n / P⌋` times. -/
theorem num_patches_of_not_dvd {n P : Nat} (hP : 0 < P) (h : ¬ P ∣ n) :
    num_patches n P = n / P := by
  rcases Nat.lt_or_ge n P with hlt | hge
  · have h1 : n - P = 0 := Nat.sub_eq_zero_of_le (Nat.le_of_lt hlt)
    have h2 : n / P = 0 := Nat.div_eq_of_lt hlt
    unfold num_patches
    rw [h1, h2, Nat.zero_add, Nat.div_eq_of_lt (by omega)]
  · have hn1 : 0 < n := lt_of_lt_of_le hP hge
    rw [num_patches_eq_pred_div hP hge]
    have hs := Nat.succ_div (n - 1) P
    have hsucc : n - 1 + 1 = n := Nat.succ_pred_eq_of_pos hn1
    rw [hsucc] at hs
    rw [hs, if_neg h]
    omega

/-- When `P` divides `n` and `n ≥ P`, the loop runs only `n/P - 1` times:
the final full window, which ends exactly at `n`, is dropped. -/
theorem num_patches_of_dvd {n P : Nat} (hP : 0 < P) (h : P ∣ n) (hn : P ≤ n) :
    num_patches n P = n / P - 1 := by
  rw [num_patches_eq_pred_div hP hn]
  obtain ⟨q, rfl⟩ := h
  have hq : 1 ≤ q := by
    rcases Nat.eq_zero_or_pos q with h0 | h1
    · subst h0; simp at hn; omega
    · exact h1
  obtain ⟨q', rfl⟩ : ∃ q', q = q' + 1 := ⟨q - 1, by omega⟩
  have h1 : P * (q' + 1) - 1 = P * q' + (P - 1) := by
    rw [Nat.mul_add, Nat.mul_one, Nat.add_sub_assoc hP]
  rw [h1, Nat.add_comm, Nat.add_mul_div_left _ _ hP,
    Nat.div_eq_of_lt (by omega), Nat.zero_add, Nat.mul_div_cancel_left _ hP]
  omega

end PatchCounting

/-- A 2×n sample matrix (`data[k]` in the source): two channels of equal
length; `width` is `v.shape[1]`, the number of time-sample columns. -/
structure SampleMatrix where
  ch0 : List ℚ
  ch1 : List ℚ
  hlen : ch1.length = ch0.length

/-- `v.shape[1]`: the number of sample columns of the track. -/
def SampleMatrix.width (v : SampleMatrix) : Nat := v.ch0.length

/-- `v[:, e:patch_size+e].ravel()` (line 180): both channels' samples over
column range `[e, e+P)`, channel 0's slice followed by channel 1's
(numpy ravel is row-major). -/
def SampleMatrix.patch (v : SampleMatrix) (P e : Nat) : List ℚ :=
  (v.ch0.drop e).take P ++ (v.ch1.drop e).take P

/-- The raveled sample patches produced for one track by the inner loop of
`split_music_to_patches` (lines 179–180), in window order. -/
def split_track_patches (v : SampleMatrix) (P : Nat) : List (List ℚ) :=
  (patch_starts v.width P).map (fun e => v.patch P e)

section DropRemainder

/-- A slice `[e, e+P)` of a channel only reads the first `m` samples
whenever `e + P ≤ m`. -/
theorem slice_take_of_le (l : List ℚ) {m P e : Nat} (h : e + P ≤ m) :
    ((l.take m).drop e).take P = (l.drop e).take P := by
  rw [List.drop_take, List.take_take, Nat.min_eq_left (by omega)]

/-- Every window start produced when `P ∤ N` satisfies
`e + P ≤ N - N % P`: the slice `[e, e+P)` lies inside the first
`⌊N/P⌋·P` columns. -/
theorem patch_starts_bound {n P : Nat} (hP : 0 < P) (h : ¬ P ∣ n) :
    ∀ e ∈ patch_starts n P, e + P ≤ n - n % P := by
  intro e he
  rw [mem_patch_starts] at he
  obtain ⟨i, hi, rfl⟩ := he
  rw [num_patches_of_not_dvd hP h] at hi
  have hmod : P * (n / P) + n % P = n := Nat.div_add_mod n P
  have h1 : i * P + P = P * (i + 1) := by ring
  have h2 : P * (i + 1) ≤ P * (n / P) :=
    Nat.mul_le_mul_left P (by omega)
  omega

/-- C6 core: when `P` does not divide the track width `N`, the inner loop
yields exactly `⌊N/P⌋` patches, every produced patch is a slice of only the
first `N - N % P` sample columns (so none of the trailing `N mod P` samples
appears in any patch), and each patch is a full window of `2·P` samples. -/
theorem split_track_patches_spec (v : SampleMatrix) (P : Nat) (hP : 0 < P)
    (h : ¬ P ∣ v.width) :
    (split_track_patches v P).length = v.width / P ∧
    (∀ e ∈ patch_starts v.width P,
      v.patch P e =
        ((v.ch0.take (v.width - v.width % P)).drop e).take P ++
        ((v.ch1.take (v.width - v.width % P)).drop e).take P) ∧
    ∀ p ∈ split_track_patches v P, p.length = 2 * P := by
  refine ⟨?_, ?_, ?_⟩
  · rw [split_track_patches, List.length_map, patch_starts,
      List.length_map, List.length_range, num_patches_of_not_dvd hP h]
  · intro e he
    have hb := patch_starts_bound hP h e he
    rw [SampleMatrix.patch, slice_take_of_le _ hb, slice_take_of_le _ hb]
  · intro p hp
    rw [split_track_patches, List.mem_map] at hp
    obtain ⟨e, he, rfl⟩ := hp
    have hb := patch_starts_bound hP h e he
    have hmod : v.width % P ≤ v.width := Nat.mod_le _ _
    have h0 : P ≤ v.ch0.length - e := by
      have : v.ch0.length = v.width := rfl
      omega
    have h1 : P ≤ v.ch1.length - e := by
      have : v.ch1.length = v.width := v.hlen
      omega
    rw [SampleMatrix.patch, List.length_append, List.length_take,
      List.length_drop, List.length_take, List.length_drop]
    omega

end DropRemainder

/-- C6: for a track of `N` samples and patch size `P = 44100·length` with
`N` not a multiple of `P`, the extractor yields exactly `⌊N/P⌋` patches and
every patch is a slice of only the first `N - N mod P` sample columns, so
none of the trailing `N mod P` samples appears in any patch. -/
theorem C6_floor_count_and_trailing_dropped (v : SampleMatrix)
    (len : Nat) (hl : 0 < len) (h : ¬ patch_size len ∣ v.width) :
    (split_track_patches v (patch_size len)).length = v.width / patch_size len ∧
    ∀ e ∈ patch_starts v.width (patch_size len),
      v.patch (patch_size len) e =
        ((v.ch0.take (v.width - v.width % patch_size len)).drop e).take
          (patch_size len) ++
        ((v.ch1.take (v.width - v.width % patch_size len)).drop e).take
          (patch_size len) := by
  have hP : 0 < patch_size len := by
    unfold patch_size; positivity
  obtain ⟨h1, h2, -⟩ := split_track_patches_spec v _ hP h
  exact ⟨h1, h2⟩

/-- A 44101-sample constant track used to instantiate C6. -/
def c6_matrix : SampleMatrix :=
  ⟨List.replicate 44101 0, List.replicate 44101 0, rfl⟩

/-- Witness for C6: a 1-second patch size (44100 samples) on a 44101-sample
track, whose width is not a multiple of the patch size. -/
theorem C6_floor_count_witness :
    (0 < 1 ∧ ¬ patch_size 1 ∣ c6_matrix.width) ∧
    (split_track_patches c6_matrix (patch_size 1)).length =
      c6_matrix.width / patch_size 1 :=
  have hd : ¬ patch_size 1 ∣ c6_matrix.width := by
    unfold c6_matrix SampleMatrix.width patch_size
    rw [List.length_replicate]
    decide
  ⟨⟨Nat.one_pos, hd⟩, (C6_floor_count_and_trailing_dropped c6_matrix 1 Nat.one_pos hd).1⟩

/-- A 441000-sample track: exactly twice the 5-second patch size. -/
def c1_matrix : SampleMatrix :=
  ⟨List.replicate 441000 0, List.replicate 441000 0, rfl⟩

/-- C1 (bug evaluation): on a track whose width is exactly `2·P`
(`P = patch_size 5 = 220500`), the loop `xrange(0, N - P, P)` produces only
the single window start `0` — one patch — although both windows
`[0,P)` and `[P,2P)` end within the track (`N / P = 2`): the last full
window is dropped when `N` is an exact multiple of `P`, contradicting the
docstring "the last patch that is not long enough is abandoned". -/
theorem C1_exact_multiple_drops_full_window :
    c1_matrix.width = 2 * patch_size 5 ∧
    patch_starts c1_matrix.width (patch_size 5) = [0] ∧
    (split_track_patches c1_matrix (patch_size 5)).length = 1 ∧
    c1_matrix.width / patch_size 5 = 2 := by
  have hw : c1_matrix.width = 441000 := by
    unfold c1_matrix SampleMatrix.width
    rw [List.length_replicate]
  refine ⟨by rw [hw]; rfl, by rw [hw]; rfl, ?_, by rw [hw]; rfl⟩
  rw [split_track_patches, List.length_map, patch_starts, List.length_map,
    List.length_range, hw]
  rfl

/-- One track's annotation dataframe after the rename pass: the `time`
column and the instrument-named confidence columns.  Duplicate column
names are allowed (multiple stems of the same instrument); `cols` pairs
each column's (renamed) name with its values, one value per row. -/
structure AnnTable where
  time : List ℚ
  cols : List (String × List ℚ)
deriving DecidableEq

/-- The row filter of lines 181–182,
`(i * length <= annotation[k].time) & (annotation[k].time < (i+1) * length)`,
applied to the `time` column itself: the selected time stamps. -/
def window_rows (time : List ℚ) (len : Nat) (i : Nat) : List ℚ :=
  time.filter (fun t =>
    decide ((i : ℚ) * (len : ℚ) ≤ t) && decide (t < ((i : ℚ) + 1) * (len : ℚ)))

/-- The same row filter applied to one confidence column (rows are aligned
with the `time` column): the column's values on the selected rows. -/
def window_values (time vals : List ℚ) (len : Nat) (i : Nat) : List ℚ :=
  ((time.zip vals).filter (fun p =>
    decide ((i : ℚ) * (len : ℚ) ≤ p.1) &&
    decide (p.1 < ((i : ℚ) + 1) * (len : ℚ)))).map Prod.snd

/-- `sub_df.mean()` for one column (line 183): the arithmetic mean of the
column's values on the selected rows.  (On an empty selection pandas
yields NaN; the spec rules that case out of every caller, §4.2.) -/
def window_mean (time vals : List ℚ) (len : Nat) (i : Nat) : ℚ :=
  (window_values time vals len i).sum / (window_values time vals len i).length

/-- `inst_conf[j]` (line 186) as a list: the windowed means of all columns
named `name` (a scalar when `name` labels one column, a pandas Series when
it labels several). -/
def inst_window_means (a : AnnTable) (len : Nat) (i : Nat) (name : String) :
    List ℚ :=
  (a.cols.filter (fun c => c.1 == name)).map
    (fun c => window_mean a.time c.2 len i)

/-- Lines 186–190: the confidence written to `label[inst_map[j]]` for an
instrument `j` present in the table — `inst_conf[j]`, reduced with `.max()`
when `j` names several columns (`isinstance(temp, pd.Series)` branch). -/
def inst_conf_value (a : AnnTable) (len : Nat) (i : Nat) (name : String) : ℚ :=
  match inst_window_means a len i name with
  | [] => 0
  | m :: ms => ms.foldl max m

section FoldMax

/-- `foldl max` over a nonempty list returns one of its elements. -/
theorem foldl_max_mem {α : Type} [LinearOrder α] :
    ∀ (ms : List α) (m : α), ms.foldl max m ∈ m :: ms := by
  intro ms
  induction ms with
  | nil => intro m; simp
  | cons a ms ih =>
    intro m
    rw [List.foldl_cons]
    rcases List.mem_cons.mp (ih (max m a)) with h' | h'
    · rcases max_choice m a with hc | hc
      · rw [h', hc]; exact List.mem_cons_self _ _
      · rw [h', hc]; exact List.mem_cons_of_mem _ (List.mem_cons_self _ _)
    · exact List.mem_cons_of_mem _ (List.mem_cons_of_mem _ h')

/-- `foldl max` over a nonempty list bounds every element of the list. -/
theorem le_foldl_max {α : Type} [LinearOrder α] :
    ∀ (ms : List α) (m : α), ∀ x ∈ m :: ms, x ≤ ms.foldl max m := by
  intro ms
  induction ms with
  | nil => intro m x hx; simp at hx; simp [hx]
  | cons a ms ih =>
    intro m x hx
    rw [List.foldl_cons]
    rcases List.mem_cons.mp hx with h' | h'
    · calc x = m := h'
        _ ≤ max m a := le_max_left _ _
        _ ≤ ms.foldl max (max m a) := ih (max m a) _ (List.mem_cons_self _ _)
    rcases List.mem_cons.mp h' with h'' | h''
    · calc x = a := h''
        _ ≤ max m a := le_max_right _ _
        _ ≤ ms.foldl max (max m a) := ih (max m a) _ (List.mem_cons_self _ _)
    · exact ih (max m a) x (List.mem_cons_of_mem _ h'')

/-- Whenever the instrument names at least one column, the written
confidence is the maximum of the windowed means of its columns. -/
theorem inst_conf_value_is_max (a : AnnTable) (len i : Nat) (name : String)
    (h : inst_window_means a len i name ≠ []) :
    (∀ m ∈ inst_window_means a len i name, m ≤ inst_conf_value a len i name) ∧
    inst_conf_value a len i name ∈ inst_window_means a len i name := by
  unfold inst_conf_value
  cases hm : inst_window_means a len i name with
  | nil => exact absurd hm h
  | cons m ms =>
    constructor
    · intro x hx
      exact le_foldl_max ms m x hx
    · exact foldl_max_mem ms m

end FoldMax

/-- C2: when an instrument name labels two or more annotation columns
(duplicate instances of the instrument in one track), the confidence the
code writes for it is the maximum of each column's windowed mean: every
column's windowed mean is bounded by it, and it is itself one of those
windowed means — never the mean of means. -/
theorem C2_duplicate_instrument_takes_max (a : AnnTable) (len i : Nat)
    (name : String)
    (h : 2 ≤ (a.cols.filter (fun c => c.1 == name)).length) :
    (∀ m ∈ inst_window_means a len i name, m ≤ inst_conf_value a len i name) ∧
    inst_conf_value a len i name ∈ inst_window_means a len i name := by
  apply inst_conf_value_is_max
  intro hnil
  have : (inst_window_means a len i name).length = 0 := by rw [hnil]; rfl
  rw [inst_window_means, List.length_map] at this
  omega

/-- The table of the spec's duplicate-instrument example: one annotation
row at time 0, two `piano` columns whose windowed means over `[0,5)` are
0.2 and 0.7. -/
def c2_table : AnnTable :=
  ⟨[0], [("piano", [1/5]), ("piano", [7/10])]⟩

/-- Witness for C2 on the spec's example table. -/
theorem C2_duplicate_instrument_witness :
    (2 ≤ (c2_table.cols.filter (fun c => c.1 == "piano")).length) ∧
    ((∀ m ∈ inst_window_means c2_table 5 0 "piano",
        m ≤ inst_conf_value c2_table 5 0 "piano") ∧
      inst_conf_value c2_table 5 0 "piano" ∈
        inst_window_means c2_table 5 0 "piano") :=
  ⟨by decide, C2_duplicate_instrument_takes_max c2_table 5 0 "piano" (by decide)⟩

/-- On the spec's example the written label is 0.7, the maximum, and not
0.45, the mean of means. -/
theorem c2_example_value :
    inst_conf_value c2_table 5 0 "piano" = 7/10 ∧
    inst_conf_value c2_table 5 0 "piano" ≠ (1/5 + 7/10) / 2 := by
  have h : inst_conf_value c2_table 5 0 "piano" = 7/10 := by
    norm_num [inst_conf_value, inst_window_means, window_mean, window_values,
      c2_table]
  exact ⟨h, by rw [h]; norm_num⟩

section WindowSelection

/-- Characterization of the row filter: a time stamp is selected for window
`i` exactly when it lies in the half-open interval `[i·len, (i+1)·len)`. -/
theorem mem_window_rows {time : List ℚ} {len : Nat} {i : Nat} {t : ℚ} :
    t ∈ window_rows time len i ↔
      t ∈ time ∧ (i : ℚ) * (len : ℚ) ≤ t ∧ t < ((i : ℚ) + 1) * (len : ℚ) := by
  simp [window_rows, List.mem_filter]

/-- C3: the mean-confidence row selection is the half-open interval
`[i·len, (i+1)·len)` — a row is selected for window `i` exactly when
`i·len ≤ time < (i+1)·len`; a row whose time equals the window's end
boundary `(i+1)·len` is never selected for window `i` but is selected for
window `i+1`; and no row is selected for two distinct windows. -/
theorem C3_half_open_window_selection (time : List ℚ) (len : Nat)
    (hl : 0 < len) (t : ℚ) (i j : Nat) :
    (t ∈ window_rows time len i ↔
      t ∈ time ∧ (i : ℚ) * (len : ℚ) ≤ t ∧ t < ((i : ℚ) + 1) * (len : ℚ)) ∧
    (t = ((i : ℚ) + 1) * (len : ℚ) →
      t ∉ window_rows time len i ∧
      (t ∈ time → t ∈ window_rows time len (i + 1))) ∧
    (i ≠ j → ¬ (t ∈ window_rows time len i ∧ t ∈ window_rows time len j)) := by
  have hlq : (0 : ℚ) < (len : ℚ) := by exact_mod_cast hl
  refine ⟨mem_window_rows, ?_, ?_⟩
  · intro ht
    constructor
    · intro hmem
      rcases mem_window_rows.mp hmem with ⟨-, -, hlt⟩
      rw [ht] at hlt
      exact lt_irrefl _ hlt
    · intro htime
      refine mem_window_rows.mpr ⟨htime, ?_, ?_⟩
      · rw [ht]
        push_cast
        linarith
      · rw [ht]
        push_cast
        linarith
  · intro hij ⟨hi, hj⟩
    rcases mem_window_rows.mp hi with ⟨-, hi1, hi2⟩
    rcases mem_window_rows.mp hj with ⟨-, hj1, hj2⟩
    rcases Nat.lt_or_ge i j with hlt | hge
    · have hle : (i : ℚ) + 1 ≤ (j : ℚ) := by exact_mod_cast hlt
      nlinarith
    · have hlt : j < i := by omega
      have hle : (j : ℚ) + 1 ≤ (i : ℚ) := by exact_mod_cast hlt
      nlinarith

end WindowSelection

/-- Witness for C3 on the spec's boundary example: a single annotation row
at time exactly 5.0, windows `[0,5)` and `[5,10)`. -/
theorem C3_half_open_window_witness :
    0 < 5 ∧
    ((5 : ℚ) ∈ window_rows [(5 : ℚ)] 5 0 ↔
      (5 : ℚ) ∈ [(5 : ℚ)] ∧ ((0 : Nat) : ℚ) * ((5 : Nat) : ℚ) ≤ 5 ∧
        (5 : ℚ) < (((0 : Nat) : ℚ) + 1) * ((5 : Nat) : ℚ)) ∧
    ((5 : ℚ) = (((0 : Nat) : ℚ) + 1) * ((5 : Nat) : ℚ) →
      (5 : ℚ) ∉ window_rows [(5 : ℚ)] 5 0 ∧
      ((5 : ℚ) ∈ [(5 : ℚ)] → (5 : ℚ) ∈ window_rows [(5 : ℚ)] 5 (0 + 1))) ∧
    ((0 : Nat) ≠ 1 →
      ¬ ((5 : ℚ) ∈ window_rows [(5 : ℚ)] 5 0 ∧
        (5 : ℚ) ∈ window_rows [(5 : ℚ)] 5 1)) :=
  ⟨Nat.lt_of_sub_eq_succ rfl,
    C3_half_open_window_selection [(5 : ℚ)] 5 (Nat.lt_of_sub_eq_succ rfl) 5 0 1⟩

section DictLookup

/-- `dict_lookup` misses exactly the keys outside the dict. -/
theorem dict_lookup_eq_none {β : Type} (k : String) :
    ∀ l : List (String × β), dict_lookup k l = none ↔ k ∉ l.map Prod.fst := by
  intro l
  induction l with
  | nil => simp [dict_lookup]
  | cons p rest ih =>
    obtain ⟨k', v⟩ := p
    rw [dict_lookup]
    by_cases h : k' = k
    · subst h
      simp
    · rw [if_neg h, ih]
      simp only [List.map_cons, List.mem_cons]
      constructor
      · intro hk
        rintro (rfl | hmem)
        · exact h rfl
        · exact hk hmem
      · intro hk hmem
        exact hk (Or.inr hmem)

/-- A successful `dict_lookup` returns a binding of the list. -/
theorem dict_lookup_mem {β : Type} {k : String} {v : β} :
    ∀ {l : List (String × β)}, dict_lookup k l = some v → (k, v) ∈ l := by
  intro l
  induction l with
  | nil => intro h; simp [dict_lookup] at h
  | cons p rest ih =>
    obtain ⟨k', v'⟩ := p
    intro h
    rw [dict_lookup] at h
    by_cases hk : k' = k
    · rw [if_pos hk] at h
      obtain rfl := hk
      obtain rfl : v' = v := by injection h
      exact List.mem_cons_self _ _
    · rw [if_neg hk] at h
      exact List.mem_cons_of_mem _ (ih h)

/-- In a dict with distinct keys, any binding is found by `dict_lookup`. -/
theorem dict_lookup_of_mem {β : Type} {k : String} {v : β} :
    ∀ {l : List (String × β)}, (l.map Prod.fst).Nodup → (k, v) ∈ l →
      dict_lookup k l = some v := by
  intro l
  induction l with
  | nil => intro _ h; simp at h
  | cons p rest ih =>
    obtain ⟨k', v'⟩ := p
    intro hnd hmem
    rw [List.map_cons, List.nodup_cons] at hnd
    rcases List.mem_cons.mp hmem with heq | hmem'
    · obtain ⟨rfl, rfl⟩ := Prod.ext_iff.mp heq
      simp [dict_lookup]
    · have hk : k' ≠ k := by
        rintro rfl
        exact hnd.1 (List.mem_map.mpr ⟨_, hmem', rfl⟩)
      rw [dict_lookup, if_neg hk]
      exact ih hnd.2 hmem'

/-- `dict_lookup` only depends on the set of bindings: with distinct keys,
a permutation of the dict looks up identically. -/
theorem dict_lookup_perm {β : Type} {l l' : List (String × β)}
    (hnd : (l.map Prod.fst).Nodup) (p : l.Perm l') (k : String) :
    dict_lookup k l = dict_lookup k l' := by
  have hnd' : (l'.map Prod.fst).Nodup := ((p.map Prod.fst).nodup_iff).mp hnd
  cases hv : dict_lookup k l with
  | none =>
    rw [dict_lookup_eq_none] at hv
    have : k ∉ l'.map Prod.fst := fun hmem =>
      hv ((p.map Prod.fst).mem_iff.mpr hmem)
    exact ((dict_lookup_eq_none k l').mpr this).symm
  | some v =>
    exact (dict_lookup_of_mem hnd' (p.mem_iff.mp (dict_lookup_mem hv))).symm

end DictLookup

/-- The instrument-collection pass of `match_meta_annotation` (lines
153–155): for each entry `(k, v)` of the annotation dict, in iteration
order, look up `meta[k]` — a missing key raises `KeyError`, exactly where
the source evaluates `meta[k]` for the column rename — and accumulate the
instrument names `meta[k].values()`. -/
def collect_instruments (meta : List (String × List (String × String))) :
    List (String × AnnTable) → Except PrepError (List String)
  | [] => Except.ok []
  | (k, _) :: rest =>
    match dict_lookup k meta with
    | none => Except.error (PrepError.keyError k)
    | some m =>
      match collect_instruments meta rest with
      | Except.error e => Except.error e
      | Except.ok l => Except.ok (m.map Prod.snd ++ l)

/-- `match_meta_annotation(meta, annotation)` (lines 137–156):
`assert(len(meta) == len(annotation))`, then the per-track rename pass
(whose `meta[k]` lookup raises `KeyError` for a track absent from `meta`),
then `sorted(list(all_instruments))`.  Python's sorted list of a set is
modelled by `dedup` followed by insertion sort on strings. -/
def match_meta_annotation (meta : List (String × List (String × String)))
    (annot : List (String × AnnTable)) : Except PrepError (List String) :=
  if meta.length = annot.length then
    match collect_instruments meta annot with
    | Except.error e => Except.error e
    | Except.ok l => Except.ok (List.insertionSort (· ≤ ·) l.dedup)
  else Except.error PrepError.assertionFailed

/-- `{e: i for i, e in enumerate(all_instruments)}` (line 220 of
`prep_data`): the name→index map derived from the sorted instrument
list, with 0-based dense indices in list order. -/
def all_instruments_map (l : List String) : List (String × Nat) :=
  l.enum.map (fun p => (p.2, p.1))

section VocabularyBuild

/-- If the collection pass succeeds, every annotation key was found in
`meta`. -/
theorem collect_ok_keys_subset
    (meta : List (String × List (String × String))) :
    ∀ (annot : List (String × AnnTable)) (l : List String),
      collect_instruments meta annot = Except.ok l →
      ∀ k ∈ annot.map Prod.fst, k ∈ meta.map Prod.fst := by
  intro annot
  induction annot with
  | nil =>
    intro l _ k hk
    simp at hk
  | cons p rest ih =>
    obtain ⟨k', a⟩ := p
    intro l hok k hk
    unfold collect_instruments at hok
    cases hd : dict_lookup k' meta with
    | none =>
      rw [hd] at hok
      simp at hok
    | some m =>
      rw [hd] at hok
      cases hr : collect_instruments meta rest with
      | error e =>
        rw [hr] at hok
        simp at hok
      | ok l' =>
        rw [List.map_cons] at hk
        rcases List.mem_cons.mp hk with rfl | hk'
        · exact List.mem_map.mpr ⟨_, dict_lookup_mem hd, rfl⟩
        · exact ih l' hr k hk'

/-- Two duplicate-free lists of equal length with one contained in the
other have the same members. -/
theorem keys_eq_of_subset (A M : List String) (hA : A.Nodup) (hM : M.Nodup)
    (hlen : M.length = A.length) (hsub : ∀ k ∈ A, k ∈ M) :
    ∀ k, k ∈ M ↔ k ∈ A := by
  have hsubF : A.toFinset ⊆ M.toFinset := by
    intro x hx
    rw [List.mem_toFinset] at hx ⊢
    exact hsub x hx
  have hcard : M.toFinset.card ≤ A.toFinset.card := by
    rw [List.toFinset_card_of_nodup hA, List.toFinset_card_of_nodup hM]
    omega
  have hEq := Finset.eq_of_subset_of_card_le hsubF hcard
  intro k
  rw [← List.mem_toFinset, ← hEq, List.mem_toFinset]

/-- C4: whenever the metadata and annotation dicts do not contain exactly
the same set of track keys — different sizes, or equal sizes with different
keys — `match_meta_annotation` raises (a failed assertion in the first
case, a `KeyError` from `meta[k]` in the second) and never returns a
vocabulary. -/
theorem C4_key_set_mismatch_is_fatal
    (meta : List (String × List (String × String)))
    (annot : List (String × AnnTable))
    (hm : (meta.map Prod.fst).Nodup) (ha : (annot.map Prod.fst).Nodup)
    (hdiff : ¬ ∀ k, k ∈ meta.map Prod.fst ↔ k ∈ annot.map Prod.fst) :
    ∃ e, match_meta_annotation meta annot = Except.error e := by
  by_cases hlen : meta.length = annot.length
  · cases hc : collect_instruments meta annot with
    | error e =>
      refine ⟨e, ?_⟩
      unfold match_meta_annotation
      rw [if_pos hlen, hc]
    | ok l =>
      exfalso
      apply hdiff
      have hsub := collect_ok_keys_subset meta annot l hc
      have hlen' : (meta.map Prod.fst).length = (annot.map Prod.fst).length := by
        rw [List.length_map, List.length_map]
        exact hlen
      exact keys_eq_of_subset (annot.map Prod.fst) (meta.map Prod.fst)
        ha hm hlen' hsub
  · refine ⟨PrepError.assertionFailed, ?_⟩
    unfold match_meta_annotation
    rw [if_neg hlen]

/-- Metadata dict with the single track key `trackA`. -/
def c4_meta : List (String × List (String × String)) :=
  [("trackA", [("S01", "piano")])]

/-- Annotation dict of the same size but with track key `trackB`. -/
def c4_annot : List (String × AnnTable) := [("trackB", ⟨[], []⟩)]

/-- Witness for C4: equal-size dicts with different track keys make the
vocabulary build fail. -/
theorem C4_key_set_mismatch_witness :
    ((c4_meta.map Prod.fst).Nodup ∧ (c4_annot.map Prod.fst).Nodup ∧
      ¬ ∀ k, k ∈ c4_meta.map Prod.fst ↔ k ∈ c4_annot.map Prod.fst) ∧
    ∃ e, match_meta_annotation c4_meta c4_annot = Except.error e :=
  have h1 : (c4_meta.map Prod.fst).Nodup := by decide
  have h2 : (c4_annot.map Prod.fst).Nodup := by decide
  have h3 : ¬ ∀ k, k ∈ c4_meta.map Prod.fst ↔ k ∈ c4_annot.map Prod.fst :=
    fun hall => by
      have h := (hall "trackA").mp (by simp [c4_meta])
      simp [c4_annot] at h
  ⟨⟨h1, h2, h3⟩, C4_key_set_mismatch_is_fatal c4_meta c4_annot h1 h2 h3⟩

end VocabularyBuild

section VocabularyDeterminism

/-- A successful collection pass returns exactly the concatenation, in
iteration order, of each track's `meta[k].values()`. -/
theorem collect_ok_flatten
    (meta : List (String × List (String × String))) :
    ∀ (annot : List (String × AnnTable)) (l : List String),
      collect_instruments meta annot = Except.ok l →
      l = (annot.map (fun kv =>
            ((dict_lookup kv.1 meta).getD []).map Prod.snd)).flatten := by
  intro annot
  induction annot with
  | nil =>
    intro l h
    unfold collect_instruments at h
    injection h with h
    rw [← h]
    rfl
  | cons p rest ih =>
    obtain ⟨k', a⟩ := p
    intro l h
    unfold collect_instruments at h
    cases hd : dict_lookup k' meta with
    | none =>
      rw [hd] at h
      simp at h
    | some m =>
      rw [hd] at h
      cases hr : collect_instruments meta rest with
      | error e =>
        rw [hr] at h
        simp at h
      | ok l' =>
        rw [hr] at h
        simp only at h
        injection h with h
        rw [← h, List.map_cons, List.flatten_cons, ← ih l' hr, hd]
        rfl

/-- Unfolding a successful `match_meta_annotation` run: the sizes agreed
and the result is the sorted deduplicated collected name list. -/
theorem mma_ok_elim (meta : List (String × List (String × String)))
    (annot : List (String × AnnTable)) (l : List String)
    (h : match_meta_annotation meta annot = Except.ok l) :
    ∃ L, collect_instruments meta annot = Except.ok L ∧
      l = List.insertionSort (· ≤ ·) L.dedup := by
  unfold match_meta_annotation at h
  by_cases hlen : meta.length = annot.length
  · rw [if_pos hlen] at h
    cases hc : collect_instruments meta annot with
    | error e =>
      rw [hc] at h
      simp at h
    | ok L =>
      rw [hc] at h
      simp only at h
      injection h with h
      exact ⟨L, rfl, h.symm⟩
  · rw [if_neg hlen] at h
    simp at h

/-- C5: the vocabulary build is order-invariant — permuting the iteration
order of the tracks in both dicts yields the same instrument list, which
is lexicographically sorted and duplicate-free, and hence the same
name→index map. -/
theorem C5_vocabulary_order_invariant
    (meta meta' : List (String × List (String × String)))
    (annot annot' : List (String × AnnTable))
    (hm : (meta.map Prod.fst).Nodup)
    (pm : meta.Perm meta') (pa : annot.Perm annot')
    (l l' : List String)
    (h : match_meta_annotation meta annot = Except.ok l)
    (h' : match_meta_annotation meta' annot' = Except.ok l') :
    l = l' ∧ l.Sorted (· ≤ ·) ∧ l.Nodup ∧
    all_instruments_map l = all_instruments_map l' := by
  obtain ⟨L, hcL, rfl⟩ := mma_ok_elim meta annot l h
  obtain ⟨L', hcL', rfl⟩ := mma_ok_elim meta' annot' l' h'
  have hfe : (fun kv : String × AnnTable =>
        ((dict_lookup kv.1 meta).getD []).map Prod.snd) =
      (fun kv : String × AnnTable =>
        ((dict_lookup kv.1 meta').getD []).map Prod.snd) := by
    funext kv
    rw [dict_lookup_perm hm pm]
  have hLperm : L.Perm L' := by
    rw [collect_ok_flatten meta annot L hcL,
      collect_ok_flatten meta' annot' L' hcL', ← hfe]
    exact (pa.map _).flatten
  have hdperm : L.dedup.Perm L'.dedup := hLperm.dedup
  have hs : (List.insertionSort (· ≤ ·) L.dedup).Sorted (· ≤ ·) :=
    List.sorted_insertionSort _ _
  have hs' : (List.insertionSort (· ≤ ·) L'.dedup).Sorted (· ≤ ·) :=
    List.sorted_insertionSort _ _
  have heq : List.insertionSort (· ≤ ·) L.dedup =
      List.insertionSort (· ≤ ·) L'.dedup :=
    List.eq_of_perm_of_sorted
      ((List.perm_insertionSort _ _).trans
        (hdperm.trans (List.perm_insertionSort _ _).symm)) hs hs'
  refine ⟨heq, hs, ?_, by rw [heq]⟩
  exact (List.perm_insertionSort _ _).nodup_iff.mpr (List.nodup_dedup L)

/-- Two-track metadata dict (tracks `t1`, `t2`). -/
def c5_meta : List (String × List (String × String)) :=
  [("t1", [("S01", "piano")]), ("t2", [("S01", "flute")])]

/-- The same metadata dict iterated in the opposite order. -/
def c5_meta2 : List (String × List (String × String)) :=
  [("t2", [("S01", "flute")]), ("t1", [("S01", "piano")])]

/-- Two-track annotation dict matching `c5_meta`. -/
def c5_annot : List (String × AnnTable) :=
  [("t1", ⟨[], []⟩), ("t2", ⟨[], []⟩)]

/-- The same annotation dict iterated in the opposite order. -/
def c5_annot2 : List (String × AnnTable) :=
  [("t2", ⟨[], []⟩), ("t1", ⟨[], []⟩)]

/-- Witness for C5: both iteration orders of a two-track dataset produce
the vocabulary `["flute", "piano"]` and the same index map. -/
theorem C5_vocabulary_order_witness :
    ((c5_meta.map Prod.fst).Nodup ∧ c5_meta.Perm c5_meta2 ∧
      c5_annot.Perm c5_annot2 ∧
      match_meta_annotation c5_meta c5_annot =
        Except.ok ["flute", "piano"] ∧
      match_meta_annotation c5_meta2 c5_annot2 =
        Except.ok ["flute", "piano"]) ∧
    (["flute", "piano"] = ["flute", "piano"] ∧
      (["flute", "piano"] : List String).Sorted (· ≤ ·) ∧
      (["flute", "piano"] : List String).Nodup ∧
      all_instruments_map ["flute", "piano"] =
        all_instruments_map ["flute", "piano"]) :=
  have h1 : (c5_meta.map Prod.fst).Nodup := by decide
  have h2 : c5_meta.Perm c5_meta2 := by decide
  have h3 : c5_annot.Perm c5_annot2 := by decide
  have h4 : match_meta_annotation c5_meta c5_annot =
      Except.ok ["flute", "piano"] := by with_unfolding_all rfl
  have h5 : match_meta_annotation c5_meta2 c5_annot2 =
      Except.ok ["flute", "piano"] := by with_unfolding_all rfl
  ⟨⟨h1, h2, h3, h4, h5⟩,
    C5_vocabulary_order_invariant c5_meta c5_meta2 c5_annot c5_annot2
      h1 h2 h3 _ _ h4 h5⟩

end VocabularyDeterminism

section NameNormalization

/-- The ASCII apostrophe (codepoint 39), one of the two characters deleted
by `k.translate(None, "'-")` in `read_activation_confs`. -/
def quoteChar : Char := Char.ofNat 39

/-- Track-key derivation of `read_activation_confs` (lines 105–106) on the
character list of an annotation file name `i`:
`i[:-20]` drops the 20-character file suffix
(`_ACTIVATION_CONF.lab` sized), `.split('(')[0]` keeps the prefix before
the first opening parenthesis, and `.translate(None, "'-")` deletes every
apostrophe and hyphen. -/
def track_key_chars (l : List Char) : List Char :=
  ((l.take (l.length - 20)).takeWhile (fun c => c != '(')).filter
    (fun c => !(c == quoteChar || c == '-'))

/-- The dictionary key `read_activation_confs` stores the annotation of
file `i` under. -/
def track_key_of_filename (i : String) : String :=
  String.mk (track_key_chars i.data)

/-- A `takeWhile` result is never longer than its input. -/
theorem takeWhile_length_le {α : Type} (p : α → Bool) :
    ∀ l : List α, (l.takeWhile p).length ≤ l.length := by
  intro l
  induction l with
  | nil => simp
  | cons a rest ih =>
    rw [List.takeWhile_cons]
    by_cases h : p a = true
    · rw [if_pos h]
      simpa using ih
    · rw [if_neg h]
      simp

/-- Metadata whose single instrument name contains a hyphen. -/
def c7_meta : List (String × List (String × String)) :=
  [("t1", [("S01", "e-guitar")])]

/-- Annotation dict matching `c7_meta`. -/
def c7_annot : List (String × AnnTable) := [("t1", ⟨[], []⟩)]

/-- C7 counterexample: the vocabulary build groups and returns the
instrument name `e-guitar` with its hyphen intact — no quote/hyphen
stripping is ever applied to instrument names. -/
theorem C7_instrument_name_survives_unstripped :
    match_meta_annotation c7_meta c7_annot = Except.ok ["e-guitar"] ∧
    '-' ∈ "e-guitar".data := by
  constructor
  · with_unfolding_all rfl
  · decide

/-- C7 amended: the quote/hyphen stripping, the 20-character suffix drop
and the cut at the first parenthesis are applied to the *track keys*
derived from annotation file names in `read_activation_confs`: every
derived key is free of quote, hyphen and parenthesis characters and is at
most as long as the file name minus its suffix.  (Instrument names are
never normalized, as the counterexample shows.) -/
theorem C7_track_keys_are_normalized (i : String) :
    (∀ c ∈ (track_key_of_filename i).data,
      c ≠ quoteChar ∧ c ≠ '-' ∧ c ≠ '(') ∧
    (track_key_of_filename i).data.length ≤ i.data.length - 20 := by
  constructor
  · intro c hc
    have hfilter := List.of_mem_filter hc
    have htw : c ∈ (i.data.take (i.data.length - 20)).takeWhile
        (fun c => c != '(') := List.mem_of_mem_filter hc
    have hpar := List.mem_takeWhile_imp htw
    refine ⟨?_, ?_, ?_⟩
    · intro hq
      subst hq
      simp at hfilter
    · intro hh
      subst hh
      simp at hfilter
    · intro hp
      subst hp
      simp at hpar
  · calc (track_key_of_filename i).data.length
        ≤ ((i.data.take (i.data.length - 20)).takeWhile
            (fun c => c != '(')).length :=
          List.length_filter_le _ _
      _ ≤ (i.data.take (i.data.length - 20)).length :=
          takeWhile_length_le _ _
      _ ≤ i.data.length - 20 := by
          rw [List.length_take]
          omega

/-- Witness for C7 amended, at the file name
`AB-C(D)xxxxxxxxxxxxxxxxxxxx` whose derived key is `ABC`. -/
theorem C7_track_keys_witness :
    ('A' ∈ (track_key_of_filename "AB-C(D)xxxxxxxxxxxxxxxxxxxx").data) ∧
    ('A' ≠ quoteChar ∧ 'A' ≠ '-' ∧ 'A' ≠ '(') ∧
    (track_key_of_filename "AB-C(D)xxxxxxxxxxxxxxxxxxxx").data.length ≤
      "AB-C(D)xxxxxxxxxxxxxxxxxxxx".data.length - 20 :=
  ⟨by decide,
    (C7_track_keys_are_normalized "AB-C(D)xxxxxxxxxxxxxxxxxxxx").1 'A'
      (by decide),
    (C7_track_keys_are_normalized "AB-C(D)xxxxxxxxxxxxxxxxxxxx").2⟩

end NameNormalization

section Normalization

/-- `data[k].mean(axis=1)` for one channel of a track, over the reals. -/
noncomputable def channel_mean (l : List ℝ) : ℝ := l.sum / l.length

/-- `data[k].std(axis=1)` for one channel: numpy's population standard
deviation `sqrt(mean((x - mean)²))`. -/
noncomputable def channel_std (l : List ℝ) : ℝ :=
  Real.sqrt ((l.map (fun x => (x - channel_mean l) ^ 2)).sum / l.length)

/-- Lines 85–88 for one channel: `(data[k] - mean) / std`, with no guard
on `std`.  An IEEE division by a zero standard deviation floods the
channel with undefined values (NaN); `none` models that outcome. -/
noncomputable def normalize_channel (l : List ℝ) : Option (List ℝ) :=
  if channel_std l = 0 then none
  else some (l.map (fun x => (x - channel_mean l) / channel_std l))

/-- A sum of nonnegative reals vanishes only if every summand does. -/
theorem sum_nonneg_eq_zero_iff :
    ∀ l : List ℝ, (∀ x ∈ l, 0 ≤ x) → (l.sum = 0 ↔ ∀ x ∈ l, x = 0) := by
  intro l
  induction l with
  | nil => intro _; simp
  | cons a rest ih =>
    intro hpos
    have ha : 0 ≤ a := hpos a (List.mem_cons_self _ _)
    have hrest : ∀ x ∈ rest, 0 ≤ x := fun x hx =>
      hpos x (List.mem_cons_of_mem _ hx)
    have hsum : 0 ≤ rest.sum := List.sum_nonneg hrest
    rw [List.sum_cons]
    constructor
    · intro h
      have ha0 : a = 0 := by linarith
      have hs0 : rest.sum = 0 := by linarith
      intro x hx
      rcases List.mem_cons.mp hx with rfl | hx'
      · exact ha0
      · exact ((ih hrest).mp hs0) x hx'
    · intro h
      have ha0 : a = 0 := h a (List.mem_cons_self _ _)
      have hs0 : rest.sum = 0 :=
        (ih hrest).mpr (fun x hx => h x (List.mem_cons_of_mem _ hx))
      rw [ha0, hs0, add_zero]

/-- The standard deviation of a nonempty channel vanishes exactly when
every sample equals the channel mean. -/
theorem channel_std_eq_zero_iff (l : List ℝ) (h : l ≠ []) :
    channel_std l = 0 ↔ ∀ x ∈ l, x = channel_mean l := by
  have hlen : (0 : ℝ) < l.length := by
    have : l.length ≠ 0 := fun h0 => h (List.eq_nil_of_length_eq_zero h0)
    have : 0 < l.length := Nat.pos_of_ne_zero this
    exact_mod_cast this
  have hvar : 0 ≤ (l.map (fun x => (x - channel_mean l) ^ 2)).sum := by
    apply List.sum_nonneg
    intro x hx
    rcases List.mem_map.mp hx with ⟨y, -, rfl⟩
    positivity
  rw [channel_std, Real.sqrt_eq_zero (by positivity)]
  rw [div_eq_zero_iff]
  constructor
  · rintro (hsum | hlen0)
    · intro x hx
      have hx2 : (x - channel_mean l) ^ 2 = 0 := by
        have := (sum_nonneg_eq_zero_iff _ (fun y hy => by
          rcases List.mem_map.mp hy with ⟨z, -, rfl⟩
          positivity)).mp hsum
        exact this _ (List.mem_map.mpr ⟨x, hx, rfl⟩)
      have := pow_eq_zero_iff (n := 2) (by norm_num) |>.mp hx2
      linarith [sub_eq_zero.mp this]
    · exact absurd hlen0 (by positivity)
  · intro hconst
    left
    apply (sum_nonneg_eq_zero_iff _ (fun y hy => by
      rcases List.mem_map.mp hy with ⟨z, -, rfl⟩
      positivity)).mpr
    intro y hy
    rcases List.mem_map.mp hy with ⟨z, hz, rfl⟩
    rw [hconst z hz]
    ring

/-- The unguarded channel normalization yields the undefined value exactly
on constant (zero-variance) channels. -/
theorem normalize_channel_none_iff (l : List ℝ) (h : l ≠ []) :
    normalize_channel l = none ↔ ∀ x ∈ l, ∀ y ∈ l, x = y := by
  constructor
  · intro hnone
    by_cases hstd : channel_std l = 0
    · have hmean := (channel_std_eq_zero_iff l h).mp hstd
      intro x hx y hy
      rw [hmean x hx, hmean y hy]
    · rw [normalize_channel, if_neg hstd] at hnone
      simp at hnone
  · intro hconst
    have hstd : channel_std l = 0 := by
      apply (channel_std_eq_zero_iff l h).mpr
      intro x hx
      obtain ⟨a, rest, rfl⟩ : ∃ a rest, l = a :: rest := by
        cases l with
        | nil => exact absurd rfl h
        | cons a rest => exact ⟨a, rest, rfl⟩
      have hall : ∀ y ∈ a :: rest, y = a := fun y hy =>
        hconst y hy a (List.mem_cons_self _ _)
      have hsum : (a :: rest).sum = (a :: rest).length • a :=
        List.sum_eq_card_nsmul _ a hall
      have hlen : (((a :: rest).length : Nat) : ℝ) ≠ 0 := by
        rw [List.length_cons]
        push_cast
        positivity
      rw [hall x hx, channel_mean, hsum, nsmul_eq_mul, mul_comm,
        mul_div_assoc, div_self hlen, mul_one]
    rw [normalize_channel, if_pos hstd]

/-- C8 amended: the per-channel division of `normalize_data` is not
guarded — for a nonempty channel the output is flooded with undefined
values exactly when the channel is constant (zero variance); there is no
defined zero-normalization branch. -/
theorem C8_zero_variance_floods_channel (l : List ℝ) (h : l ≠ []) :
    normalize_channel l = none ↔ ∀ x ∈ l, ∀ y ∈ l, x = y :=
  normalize_channel_none_iff l h

/-- Witness for C8 amended on the constant channel `[1, 1]`. -/
theorem C8_zero_variance_witness :
    (([1, 1] : List ℝ) ≠ []) ∧
    (normalize_channel [1, 1] = none ↔
      ∀ x ∈ ([1, 1] : List ℝ), ∀ y ∈ ([1, 1] : List ℝ), x = y) :=
  ⟨by simp, C8_zero_variance_floods_channel [1, 1] (by simp)⟩

/-- C8 counterexample: on the constant two-sample channel `[1, 1]` the
code divides by the zero standard deviation and the channel's output is
undefined (NaN, modelled as `none`) — normalization takes no defined
branch for a zero-variance channel, refuting the claimed guard. -/
theorem C8_constant_channel_goes_nan :
    normalize_channel [1, 1] = none := by
  rw [normalize_channel_none_iff [1, 1] (by simp)]
  intro x hx y hy
  rcases List.mem_cons.mp hx with rfl | hx' <;>
    rcases List.mem_cons.mp hy with rfl | hy' <;>
      simp_all

end Normalization

section BatchPersistence

/-- `range(max(start_from, 0), len(dlist), save_size)` (line 225): the
group start indices (the `max` with 0 is absorbed by using `Nat`). -/
def group_starts (start_from n save_size : Nat) : List Nat :=
  (List.range ((n - start_from + (save_size - 1)) / save_size)).map
    (fun i => start_from + i * save_size)

/-- The pair `(i, i+save_size)` embedded in the destination file name
`patch_data_{i}_{i+save_size}.mat` (lines 237–238). -/
def patch_file_id (i save_size : Nat) : Nat × Nat := (i, i + save_size)

/-- The persistence loop of `prep_data` (lines 225–242), abstracted over
the destination filesystem.  The state is `(existing files, written so
far)`; for each group start the batch is persisted only
`if not os.path.exists(patches_save_path)` (line 239). -/
def prep_data_write_loop (save_size : Nat) :
    List Nat → List (Nat × Nat) × List (Nat × Nat) →
      List (Nat × Nat) × List (Nat × Nat)
  | [], st => st
  | i :: rest, st =>
    if patch_file_id i save_size ∈ st.1 then
      prep_data_write_loop save_size rest st
    else
      prep_data_write_loop save_size rest
        (patch_file_id i save_size :: st.1,
          st.2 ++ [patch_file_id i save_size])

/-- The file ids a full run of `prep_data`'s loop persists, starting from
filesystem `fs0`. -/
def prep_data_writes (fs0 : List (Nat × Nat))
    (start_from n save_size : Nat) : List (Nat × Nat) :=
  (prep_data_write_loop save_size (group_starts start_from n save_size)
    (fs0, [])).2

/-- Writes already recorded persist through the rest of the loop. -/
theorem write_loop_mono (s : Nat) :
    ∀ (L : List Nat) (st : List (Nat × Nat) × List (Nat × Nat))
      (p : Nat × Nat), p ∈ st.2 → p ∈ (prep_data_write_loop s L st).2 := by
  intro L
  induction L with
  | nil => intro st p hp; exact hp
  | cons i rest ih =>
    intro st p hp
    rw [prep_data_write_loop]
    by_cases hmem : patch_file_id i s ∈ st.1
    · rw [if_pos hmem]
      exact ih st p hp
    · rw [if_neg hmem]
      exact ih _ p (List.mem_append_left _ hp)

/-- Everything the loop writes is either an old write or the file id of
one of the remaining group starts. -/
theorem write_loop_writes_from (s : Nat) :
    ∀ (L : List Nat) (st : List (Nat × Nat) × List (Nat × Nat))
      (p : Nat × Nat), p ∈ (prep_data_write_loop s L st).2 →
      p ∈ st.2 ∨ ∃ i ∈ L, p = patch_file_id i s := by
  intro L
  induction L with
  | nil => intro st p hp; exact Or.inl hp
  | cons i rest ih =>
    intro st p hp
    rw [prep_data_write_loop] at hp
    by_cases hmem : patch_file_id i s ∈ st.1
    · rw [if_pos hmem] at hp
      rcases ih st p hp with h | ⟨j, hj, rfl⟩
      · exact Or.inl h
      · exact Or.inr ⟨j, List.mem_cons_of_mem _ hj, rfl⟩
    · rw [if_neg hmem] at hp
      rcases ih _ p hp with h | ⟨j, hj, rfl⟩
      · rcases List.mem_append.mp h with h' | h'
        · exact Or.inl h'
        · rcases List.mem_singleton.mp h' with rfl
          exact Or.inr ⟨i, List.mem_cons_self _ _, rfl⟩
      · exact Or.inr ⟨j, List.mem_cons_of_mem _ hj, rfl⟩

/-- Loop invariant: a remaining group start's file is (eventually) written
exactly when it was already written or does not yet exist. -/
theorem write_loop_mem_iff (s : Nat) :
    ∀ (L : List Nat) (st : List (Nat × Nat) × List (Nat × Nat)) (i : Nat),
      i ∈ L → L.Nodup →
      (patch_file_id i s ∈ (prep_data_write_loop s L st).2 ↔
        patch_file_id i s ∈ st.2 ∨ patch_file_id i s ∉ st.1) := by
  intro L
  induction L with
  | nil => intro st i hi; exact absurd hi (List.not_mem_nil _)
  | cons j rest ih =>
    intro st i hi hnd
    rw [List.nodup_cons] at hnd
    rw [prep_data_write_loop]
    rcases List.mem_cons.mp hi with rfl | hi'
    · by_cases hmem : patch_file_id i s ∈ st.1
      · rw [if_pos hmem]
        constructor
        · intro hw
          rcases write_loop_writes_from s rest st _ hw with h | ⟨j', hj', he⟩
          · exact Or.inl h
          · have : i = j' := congrArg Prod.fst he
            exact absurd (this ▸ hj') hnd.1
        · intro h
          rcases h with h | h
          · exact write_loop_mono s rest st _ h
          · exact absurd hmem h
      · rw [if_neg hmem]
        constructor
        · intro _
          exact Or.inr hmem
        · intro _
          exact write_loop_mono s rest _ _
            (List.mem_append_right _ (List.mem_singleton.mpr rfl))
    · have hne : i ≠ j := fun he => hnd.1 (he ▸ hi')
      have hidne : patch_file_id i s ≠ patch_file_id j s := fun he =>
        hne (congrArg Prod.fst he)
      by_cases hmem : patch_file_id j s ∈ st.1
      · rw [if_pos hmem]
        exact ih st i hi' hnd.2
      · rw [if_neg hmem]
        rw [ih _ i hi' hnd.2]
        constructor
        · rintro (h | h)
          · rcases List.mem_append.mp h with h' | h'
            · exact Or.inl h'
            · exact absurd (List.mem_singleton.mp h') hidne
          · refine Or.inr fun hin => h (List.mem_cons_of_mem _ hin)
        · rintro (h | h)
          · exact Or.inl (List.mem_append_left _ h)
          · refine Or.inr fun hin => ?_
            rcases List.mem_cons.mp hin with h' | h'
            · exact hidne h'
            · exact h h'

/-- The group starts are pairwise distinct. -/
theorem group_starts_nodup (start_from n save_size : Nat) :
    (group_starts start_from n save_size).Nodup := by
  rcases Nat.eq_zero_or_pos save_size with rfl | hs
  · unfold group_starts
    simp
  · refine List.Nodup.map ?_ (List.nodup_range _)
    intro a b hab
    have hab' : start_from + a * save_size = start_from + b * save_size := hab
    have h2 : a * save_size = b * save_size := by omega
    exact Nat.eq_of_mul_eq_mul_right hs h2

/-- C9: a group starting at index `i` has its batch persisted if and only
if its destination file id `(i, i+save_size)` is not already present in
the filesystem the run started with; an existing file makes the loop skip
the write, and the decision depends only on the destination id's
existence. -/
theorem C9_persist_iff_file_absent (fs0 : List (Nat × Nat))
    (start_from n save_size : Nat) (i : Nat)
    (hi : i ∈ group_starts start_from n save_size) :
    patch_file_id i save_size ∈ prep_data_writes fs0 start_from n save_size ↔
      patch_file_id i save_size ∉ fs0 := by
  unfold prep_data_writes
  rw [write_loop_mem_iff save_size _ _ i hi
    (group_starts_nodup start_from n save_size)]
  simp

/-- Witness for C9: with groups `[0, 2)` and `[2, 4)` and the file for
`[0, 2)` already on disk, the loop persists exactly the absent file. -/
theorem C9_persist_witness :
    (0 ∈ group_starts 0 4 2 ∧ 2 ∈ group_starts 0 4 2) ∧
    (patch_file_id 0 2 ∈ prep_data_writes [(0, 2)] 0 4 2 ↔
      patch_file_id 0 2 ∉ [(0, 2)]) ∧
    (patch_file_id 2 2 ∈ prep_data_writes [(0, 2)] 0 4 2 ↔
      patch_file_id 2 2 ∉ [(0, 2)]) :=
  ⟨⟨by decide, by decide⟩,
    C9_persist_iff_file_absent [(0, 2)] 0 4 2 0 (by decide),
    C9_persist_iff_file_absent [(0, 2)] 0 4 2 2 (by decide)⟩

end BatchPersistence

section EmptyBatch

/-- The label vector of one patch (lines 184–190): `np.zeros(len(inst_map))`
then, for every (renamed) column name `j` of the track's table —
`inst_conf.index` lists a duplicated name once per column —
`label[inst_map[j]] = temp` with the duplicate-column maximum. -/
def patch_label (a : AnnTable) (inst_map : String → Nat) (size : Nat)
    (len : Nat) (i : Nat) : List ℚ :=
  (a.cols.map Prod.fst).foldl
    (fun lab j => lab.set (inst_map j) (inst_conf_value a len i j))
    (List.replicate size 0)

/-- One track's inner loop (lines 179–191): the (raveled patch, label)
pairs in window order.  The `annotation[k]` lookup of line 181 happens
inside the patch loop, so it raises `KeyError` only when the track
produces at least one window. -/
def split_track (k : String) (a? : Option AnnTable) (v : SampleMatrix)
    (inst_map : String → Nat) (size len : Nat) :
    Except PrepError (List (List ℚ × List ℚ)) :=
  (patch_starts v.width (patch_size len)).enum.mapM (fun ie =>
    match a? with
    | none => Except.error (PrepError.keyError k)
    | some a =>
      Except.ok (v.patch (patch_size len) ie.2,
        patch_label a inst_map size len ie.1))

/-- The accumulation over `data.items()` (line 178): all tracks' pairs
concatenated in iteration order. -/
def split_all_tracks (annot : List (String × AnnTable))
    (inst_map : String → Nat) (size len : Nat) :
    List (String × SampleMatrix) → Except PrepError (List (List ℚ × List ℚ))
  | [] => Except.ok []
  | kv :: rest =>
    match split_track kv.1 (dict_lookup kv.1 annot) kv.2 inst_map size len with
    | Except.error e => Except.error e
    | Except.ok pairs =>
      match split_all_tracks annot inst_map size len rest with
      | Except.error e => Except.error e
      | Except.ok more => Except.ok (pairs ++ more)

/-- `split_music_to_patches(data, annotation, inst_map, length)`
(lines 159–193): accumulate every track's (patch, label) pairs, then
`X, y = zip(*res)` — which raises `ValueError` on the empty list — and
return the two parallel arrays. -/
def split_music_to_patches (data : List (String × SampleMatrix))
    (annot : List (String × AnnTable)) (inst_map : String → Nat)
    (size len : Nat) :
    Except PrepError (List (List ℚ) × List (List ℚ)) :=
  match split_all_tracks annot inst_map size len data with
  | Except.error e => Except.error e
  | Except.ok [] => Except.error PrepError.valueError
  | Except.ok res => Except.ok (res.map Prod.fst, res.map Prod.snd)

/-- A track of at most `P` samples produces no window start. -/
theorem patch_starts_nil {n P : Nat} (hP : 0 < P) (h : n ≤ P) :
    patch_starts n P = [] := by
  unfold patch_starts num_patches
  have h0 : n - P = 0 := by omega
  rw [h0, Nat.zero_add, Nat.div_eq_of_lt (by omega)]
  rfl

/-- A track with no window start contributes no pairs and no error. -/
theorem split_track_nil (k : String) (a? : Option AnnTable)
    (v : SampleMatrix) (inst_map : String → Nat) (size len : Nat)
    (h : patch_starts v.width (patch_size len) = []) :
    split_track k a? v inst_map size len = Except.ok [] := by
  rw [split_track, h]
  rfl

/-- If every track is at most one patch size long, the accumulated pair
list is empty. -/
theorem split_all_tracks_nil (annot : List (String × AnnTable))
    (inst_map : String → Nat) (size len : Nat) (hl : 0 < len) :
    ∀ data : List (String × SampleMatrix),
      (∀ kv ∈ data, kv.2.width ≤ patch_size len) →
      split_all_tracks annot inst_map size len data = Except.ok [] := by
  intro data
  induction data with
  | nil => intro _; rfl
  | cons kv rest ih =>
    intro h
    have hP : 0 < patch_size len := by
      unfold patch_size
      positivity
    have hkv := h kv (List.mem_cons_self _ _)
    have hrest := ih (fun kv' hkv' => h kv' (List.mem_cons_of_mem _ hkv'))
    rw [split_all_tracks,
      split_track_nil _ _ _ _ _ _ (patch_starts_nil hP hkv), hrest]
    rfl

/-- C10: a group of tracks that yields zero patches in total — for
example, every track no longer than one patch — makes
`split_music_to_patches` raise (the `ValueError` of unpacking the empty
`zip`) rather than return an empty pair of arrays: callers never receive
an empty batch. -/
theorem C10_empty_group_raises (data : List (String × SampleMatrix))
    (annot : List (String × AnnTable)) (inst_map : String → Nat)
    (size len : Nat) (hl : 0 < len)
    (h : ∀ kv ∈ data, kv.2.width ≤ patch_size len) :
    split_music_to_patches data annot inst_map size len =
      Except.error PrepError.valueError := by
  rw [split_music_to_patches, split_all_tracks_nil annot inst_map size len hl data h]

/-- Witness for C10: a single 3-sample track with a 5-second patch size. -/
theorem C10_empty_group_witness :
    (0 < 5 ∧
      ∀ kv ∈ [("t", SampleMatrix.mk [1, 2, 3] [4, 5, 6] rfl)],
        (kv.2).width ≤ patch_size 5) ∧
    split_music_to_patches [("t", SampleMatrix.mk [1, 2, 3] [4, 5, 6] rfl)]
      [] (fun _ => 0) 1 5 = Except.error PrepError.valueError :=
  ⟨⟨by decide, by decide⟩,
    C10_empty_group_raises _ [] (fun _ => 0) 1 5 (by decide) (by decide)⟩

end EmptyBatch
